import Mathlib

/-!
Verification development for `gh-sw`, an interactive `git switch` helper.

The repository ships three revisions of the same single-file Go program:
* the flag-enabled revision (functions `getLocalBranches`, `getRemoteBranches`,
  `interactiveSwitchLocal`, `interactiveSwitchRemote`, `interactiveSwitchAll`,
  `switchBranch`, `exitWithStatus`);
* the marker-based revision (functions `getBranches` and `interactiveSwitch`,
  which detect the current branch via a `%(HEAD)` marker field); and
* the earliest revision (its `switchBranch` runs `git switch` and discards
  the command's error).

This file shallowly embeds the pure parts of those programs over `List Char`
(for raw subprocess output) and `String` (for branch names).  External
effects are made explicit parameters: the text the `git for-each-ref` query
produced, the value chosen at the prompt (`none` = user cancelled), and the
outcome of the final `git switch` subprocess.
-/

/-- Lexicographic order on branch names, as `slices.Sort` uses on `[]string`
in Go.  Go compares UTF-8 bytes; comparing codepoint sequences (`String.data`)
gives the same order on valid UTF-8. -/
def stringLe (a b : String) : Prop := a.data ≤ b.data

instance : DecidableRel stringLe := fun a b => inferInstanceAs (Decidable (a.data ≤ b.data))

instance : IsTotal String stringLe := ⟨fun a b => le_total a.data b.data⟩

instance : IsTrans String stringLe := ⟨fun _ _ _ h1 h2 => le_trans h1 h2⟩

instance : IsAntisymm String stringLe :=
  ⟨fun a b h1 h2 => by cases a; cases b; exact congrArg String.mk (le_antisymm h1 h2)⟩

/-- Embeds `slices.Sort` on `[]string`.  Since equal strings are
indistinguishable, every sorted permutation of a list is the same list, so
insertion sort computes exactly the output of Go's pattern-defeating
quicksort. -/
def sortStrings (l : List String) : List String := l.insertionSort stringLe

/-- Embeds Go's `unicode.IsSpace` on the characters `strings.TrimSpace`
actually trims (ASCII whitespace plus U+0085 and U+00A0). -/
def goIsSpace (c : Char) : Bool :=
  c == '\t' || c == '\n' || c == Char.ofNat 11 || c == Char.ofNat 12 ||
  c == '\r' || c == ' ' || c == Char.ofNat 0x85 || c == Char.ofNat 0xA0

/-- Embeds `strings.TrimSpace`: drop whitespace from both ends. -/
def trimSpace (s : List Char) : List Char :=
  ((s.dropWhile goIsSpace).reverse.dropWhile goIsSpace).reverse

/-- Embeds `strings.Split(strings.TrimSpace(output), "\n")`, the shared first
step of every branch lister.  `List.splitOn` has exactly the semantics of
Go's `strings.Split` with a one-character separator. -/
def splitLines (output : List Char) : List (List Char) :=
  (trimSpace output).splitOn '\n'

/-- Embeds the loop of `getLocalBranches` (flag revision, `src/main.go`
lines 89-100): keep each non-empty line as a branch name, then sort.
The fetched subprocess output is the explicit `output` argument. -/
def getLocalBranches (output : List Char) : List String :=
  sortStrings (((splitLines output).filter (· ≠ [])).map String.mk)

/-- Embeds the per-line filter of `getRemoteBranches`: skip empty lines,
skip entries without a '/' (symbolic refs like `origin`), and skip `HEAD`
references like `origin/HEAD`. -/
def keepRemote (l : List Char) : Bool :=
  !l.isEmpty && l.contains '/' && !("/HEAD".data.isSuffixOf l)

/-- Embeds the loop of `getRemoteBranches` (flag revision, `src/main.go`
lines 115-134): keep the lines that pass `keepRemote`, then sort. -/
def getRemoteBranches (output : List Char) : List String :=
  sortStrings (((splitLines output).filter keepRemote).map String.mk)

/-- Embeds the marker test `len(fields) > 1 && fields[1] == "*"` of the
marker revision's `getBranches`, where `fields` splits a ref line on tab. -/
def lineHasMarker (l : List Char) : Prop :=
  (l.splitOn '\t').length > 1 ∧ (l.splitOn '\t')[1]? = some "*".data

instance (l : List Char) : Decidable (lineHasMarker l) :=
  inferInstanceAs (Decidable (_ ∧ _))

/-- Embeds one iteration of the marker revision's `getBranches` loop:
`fields := strings.Split(line, "\t")`, append `fields[0]` to the branch
list, and record it as the current branch when the marker field is `"*"`. -/
def getBranchesStep (acc : List String × String) (l : List Char) :
    List String × String :=
  let fields := l.splitOn '\t'
  let branch : String := ⟨fields.headI⟩
  (acc.1 ++ [branch], if lineHasMarker l then branch else acc.2)

/-- Embeds the marker revision's `getBranches` (`src/main.go` second file,
the `%(refname:short)\t%(HEAD)` lister): parse every non-empty line, fail
when no line carried the `*` marker, otherwise return the sorted branch
list and the current branch. -/
def getBranches (output : List Char) : Except String (List String × String) :=
  let parsed := ((splitLines output).filter (· ≠ [])).foldl getBranchesStep ([], "")
  if parsed.2 = "" then Except.error "failed to detect current branch"
  else Except.ok (sortStrings parsed.1, parsed.2)

/-- Embeds the option-building loop of `interactiveSwitchLocal` (flag
revision, lines 151-161): the current branch is appended first as a pinned,
selectable entry (its option value is the plain branch name), then every
fetched branch other than the current one.  Only the option values are
modelled; the display label differs from the value just by the `"* "`
marker and terminal styling. -/
def localOptionValues (branches : List String) (current : String) : List String :=
  (if current ≠ "" then [current] else []) ++ branches.filter (· ≠ current)

/-- Embeds the option-building loop of `interactiveSwitchRemote` (flag
revision, lines 198-206): pinned current branch first, then every remote
branch (no exclusion). -/
def remoteOptionValues (branches : List String) (current : String) : List String :=
  (if current ≠ "" then [current] else []) ++ branches

/-- Embeds the option-building loop of `interactiveSwitchAll` (flag
revision, lines 248-262): pinned current branch, then local branches other
than the current one, then remote branches. -/
def allOptionValues (localBranches remoteBranches : List String)
    (current : String) : List String :=
  (if current ≠ "" then [current] else []) ++
    localBranches.filter (· ≠ current) ++ remoteBranches

/-- Embeds the option-building loop of the marker revision's
`interactiveSwitch` (lines 461-465): every branch except the current one;
the current branch is shown only in the form description, never as an
option. -/
def markerOptionValues (branches : List String) (current : String) : List String :=
  branches.filter (· ≠ current)

/-- Embeds the remote-prefix stripping of `interactiveSwitchRemote`
(lines 224-227): when the selected value contains a '/', drop everything up
to and including the first '/'.  Go slices bytes at
`strings.Index(selected, "/") + 1`; since '/' is one byte, this equals
dropping the characters up to and including the first '/'. -/
def stripRemote (s : String) : String :=
  if '/' ∈ s.data then ⟨s.data.drop (s.data.indexOf '/' + 1)⟩ else s

/-- Embeds the stripping of `interactiveSwitchAll` (lines 280-285), which
re-tests `strings.Index ≠ -1` inside the `strings.Contains` guard; absence
is `indexOf = length` in the embedding. -/
def stripRemoteAll (s : String) : String :=
  if '/' ∈ s.data then
    if s.data.indexOf '/' ≠ s.data.length then
      ⟨s.data.drop (s.data.indexOf '/' + 1)⟩
    else s
  else s

/-- Outcome of the `git switch` subprocess (`cmd.Run()` with the child's
stderr streamed through): success, failure with an exit status (an
`exec.ExitError`, carrying whatever the child printed on stderr), or a
failure without an exit status (e.g. the binary cannot be started). -/
inductive CmdResult where
  | ok : CmdResult
  | exitErr (code : Nat) (stderrText : String) : CmdResult
  | otherErr (msg : String) : CmdResult
deriving DecidableEq

/-- Observable outcome of one process run: the exit code, the lines that
reached stderr (informational messages and streamed subprocess output),
the option values handed to the prompt (`none` when the prompt was never
invoked), and the arguments of the `git switch` invocations made. -/
structure Run where
  exitCode : Nat
  stderr : List String
  promptOptions : Option (List String)
  switchCalls : List String
deriving DecidableEq

/-- Embeds `switchBranch` followed by the caller's
`if err := switchBranch(sel); err != nil { exitWithStatus(err) }`
(flag and marker revisions).  On an `exec.ExitError` the child's stderr was
already streamed through and `exitWithStatus` adopts the child's exit code
without printing; on any other error it prints the error and exits 1. -/
def runSwitchBranch (target : String) (res : CmdResult) (msgs : List String)
    (opts : Option (List String)) : Run :=
  match res with
  | CmdResult.ok => ⟨0, msgs, opts, [target]⟩
  | CmdResult.exitErr code text => ⟨code, msgs ++ [text], opts, [target]⟩
  | CmdResult.otherErr m => ⟨1, msgs ++ [m], opts, [target]⟩

/-- Embeds the direct-switch path of `main` in the flag and marker
revisions: `gh sw <branch>` runs `switchBranch` once and maps its error
through `exitWithStatus`. -/
def directSwitch (branch : String) (res : CmdResult) : Run :=
  runSwitchBranch branch res [] none

/-- Embeds the earliest revision's `switchBranch`
(`src/unnamed/part_000` lines 119-124): `cmd.Run()`'s error is discarded,
so the process always ends with exit code 0; the child's stderr text still
reaches the terminal because the streams are wired through. -/
def directSwitchOld (branch : String) (res : CmdResult) : Run :=
  match res with
  | CmdResult.ok => ⟨0, [], none, [branch]⟩
  | CmdResult.exitErr _ text => ⟨0, [text], none, [branch]⟩
  | CmdResult.otherErr _ => ⟨0, [], none, [branch]⟩

/-- Embeds `interactiveSwitchLocal` (flag revision, lines 137-182) after a
successful fetch: empty listing reports and exits 0; otherwise the options
are built, the prompt runs (`prompt = none` models cancellation), and the
selected value is passed to `switchBranch` unmodified. -/
def interactiveSwitchLocal (branches : List String) (current : String)
    (prompt : Option String) (res : CmdResult) : Run :=
  if branches = [] then ⟨0, ["No local branches found."], none, []⟩
  else
    let options := localOptionValues branches current
    match prompt with
    | none => ⟨0, ["Operation cancelled."], some options, []⟩
    | some selected => runSwitchBranch selected res [] (some options)

/-- Embeds `interactiveSwitchRemote` (flag revision, lines 184-232): like
the local mode, but the selected value is stripped of its remote qualifier
before the switch. -/
def interactiveSwitchRemote (branches : List String) (current : String)
    (prompt : Option String) (res : CmdResult) : Run :=
  if branches = [] then ⟨0, ["No remote branches found."], none, []⟩
  else
    let options := remoteOptionValues branches current
    match prompt with
    | none => ⟨0, ["Operation cancelled."], some options, []⟩
    | some selected => runSwitchBranch (stripRemote selected) res [] (some options)

/-- Embeds `interactiveSwitchAll` (flag revision, lines 234-290): local and
remote listings combined; the selected value is stripped whenever it
contains a '/'. -/
def interactiveSwitchAll (localBranches remoteBranches : List String)
    (current : String) (prompt : Option String) (res : CmdResult) : Run :=
  if localBranches = [] ∧ remoteBranches = [] then ⟨0, ["No branches found."], none, []⟩
  else
    let options := allOptionValues localBranches remoteBranches current
    match prompt with
    | none => ⟨0, ["Operation cancelled."], some options, []⟩
    | some selected => runSwitchBranch (stripRemoteAll selected) res [] (some options)

/-- Embeds the marker revision's `interactiveSwitch` (lines 447-493) after
a successful fetch: empty listing returns silently; when excluding the
current branch leaves no options, the only-one-branch message is printed
and the prompt is never invoked; otherwise the prompt runs and the selected
value goes to `switchBranch` unmodified. -/
def interactiveSwitch (branches : List String) (current : String)
    (prompt : Option String) (res : CmdResult) : Run :=
  if branches = [] then ⟨0, [], none, []⟩
  else
    let options := markerOptionValues branches current
    if options = [] then
      ⟨0, ["Only one local branch exists: '" ++ current ++ "'."], none, []⟩
    else
      match prompt with
      | none =>
        ⟨0, ["Operation cancelled, staying on '" ++ current ++ "'."], some options, []⟩
      | some selected => runSwitchBranch selected res [] (some options)

theorem sorted_sortStrings (l : List String) : List.Sorted stringLe (sortStrings l) :=
  List.sorted_insertionSort stringLe l

theorem perm_sortStrings (l : List String) : (sortStrings l).Perm l :=
  List.perm_insertionSort stringLe l

theorem mem_sortStrings {x : String} {l : List String} : x ∈ sortStrings l ↔ x ∈ l :=
  List.mem_insertionSort stringLe

theorem sorted_getLocalBranches (output : List Char) :
    List.Sorted stringLe (getLocalBranches output) :=
  sorted_sortStrings _

theorem sorted_getRemoteBranches (output : List Char) :
    List.Sorted stringLe (getRemoteBranches output) :=
  sorted_sortStrings _

theorem sorted_filter {l : List String} (p : String → Bool)
    (h : List.Sorted stringLe l) : List.Sorted stringLe (l.filter p) :=
  List.Pairwise.filter p h

theorem sorted_tail {l : List String} (h : List.Sorted stringLe l) :
    List.Sorted stringLe l.tail :=
  h.sublist (List.tail_sublist l)

theorem indexOf_slash (p r : List Char) (h : '/' ∉ p) :
    (p ++ '/' :: r).indexOf '/' = p.length := by
  induction p with
  | nil => simp
  | cons c cs ih =>
    have hc : c ≠ '/' := by
      intro e
      exact h (e ▸ List.mem_cons_self c cs)
    have hcs : '/' ∉ cs := fun hmem => h (List.mem_cons_of_mem c hmem)
    rw [List.cons_append, List.indexOf_cons_ne _ hc, ih hcs, List.length_cons]

theorem stripRemote_append (p r : List Char) (h : '/' ∉ p) :
    stripRemote ⟨p ++ '/' :: r⟩ = ⟨r⟩ := by
  have hm : '/' ∈ p ++ '/' :: r := List.mem_append_right p (List.mem_cons_self '/' r)
  have hsplit : p ++ '/' :: r = (p ++ ['/']) ++ r := by simp
  show (if '/' ∈ p ++ '/' :: r then
      (⟨(p ++ '/' :: r).drop ((p ++ '/' :: r).indexOf '/' + 1)⟩ : String)
    else ⟨p ++ '/' :: r⟩) = ⟨r⟩
  rw [if_pos hm, indexOf_slash p r h]
  congr 1
  rw [hsplit]
  have hlen : (p ++ ['/']).length = p.length + 1 := by simp
  rw [← hlen, List.drop_left]

theorem stripRemoteAll_eq (s : String) : stripRemoteAll s = stripRemote s := by
  unfold stripRemoteAll stripRemote
  by_cases hm : '/' ∈ s.data
  · rw [if_pos hm, if_pos hm, if_pos (Nat.ne_of_lt (List.indexOf_lt_length.mpr hm))]
  · rw [if_neg hm, if_neg hm]

theorem switchCalls_runSwitchBranch (t : String) (res : CmdResult)
    (msgs : List String) (opts : Option (List String)) :
    (runSwitchBranch t res msgs opts).switchCalls = [t] := by
  cases res <;> rfl

theorem foldl_getBranchesStep_snd (ls : List (List Char))
    (h : ∀ l ∈ ls, ¬ lineHasMarker l) (acc : List String × String) :
    (ls.foldl getBranchesStep acc).2 = acc.2 := by
  induction ls generalizing acc with
  | nil => rfl
  | cons l ls ih =>
    rw [List.foldl_cons, ih (fun x hx => h x (List.mem_cons_of_mem l hx))]
    simp [getBranchesStep, h l (List.mem_cons_self l ls)]

/-- Claim C1, counterexample: in the flag revision's local-only mode, for
the listing `feature`/`main` with current branch `main` (which contains a
branch different from the current one), the current branch `main` is among
the option values built for the prompt — it is the pinned first entry, and
its option value is selectable. -/
theorem c1_counterexample :
    "main" ∈ localOptionValues (getLocalBranches ("feature\nmain".data)) "main" ∧
    "feature" ∈ getLocalBranches ("feature\nmain".data) ∧ "feature" ≠ "main" := by
  decide

/-- Claim C1 (amended): only the marker revision's local-only mode
(`interactiveSwitch`) never offers the current branch as a selectable
value; in the flag revision (`interactiveSwitchLocal`) the current branch
is itself the pinned first selectable entry, and it never occurs after
that first position. -/
theorem c1_current_never_selectable (branches : List String) (current : String) :
    current ∉ markerOptionValues branches current ∧
    current ∉ (localOptionValues branches current).tail := by
  have hfilter : current ∉ branches.filter (· ≠ current) := by
    intro hmem
    have := List.of_mem_filter hmem
    simp at this
  refine ⟨hfilter, ?_⟩
  by_cases hc : current = ""
  · subst hc
    intro hmem
    exact hfilter ((List.tail_sublist _).subset
      (by simpa [localOptionValues] using hmem))
  · intro hmem
    rw [show (localOptionValues branches current).tail = branches.filter (· ≠ current) by
      simp [localOptionValues, hc]] at hmem
    exact hfilter hmem

/-- Claim C2, counterexample: in the flag revision's local-only mode, when
the only local branch is the current one (`main`), the interactive prompt
is still invoked — with the pinned current branch as its single option —
instead of being skipped with a benign message. -/
theorem c2_counterexample :
    (interactiveSwitchLocal (getLocalBranches ("main".data)) "main" none
        CmdResult.ok).promptOptions = some ["main"] := by
  decide

/-- Claim C2 (amended): in the marker revision (`interactiveSwitch`), if
after excluding the current branch no selectable options remain, the
program prints the benign only-one-branch message, never invokes the
prompt, performs no switch, and exits 0; the flag revision
(`interactiveSwitchLocal`) instead shows the prompt with the pinned
current branch as its only entry. -/
theorem c2_only_current_skips_prompt (branches : List String) (current : String)
    (prompt : Option String) (res : CmdResult) (h1 : branches ≠ [])
    (h2 : markerOptionValues branches current = []) :
    interactiveSwitch branches current prompt res =
      ⟨0, ["Only one local branch exists: '" ++ current ++ "'."], none, []⟩ := by
  unfold interactiveSwitch
  rw [if_neg h1]
  simp [h2]

/-- Claim C2 witness: the amended theorem applied to the concrete listing
whose only branch is the current branch `main`. -/
theorem c2_witness :
    interactiveSwitch ["main"] "main" none CmdResult.ok =
      ⟨0, ["Only one local branch exists: 'main'."], none, []⟩ := by
  exact c2_only_current_skips_prompt ["main"] "main" none CmdResult.ok
    (by decide) (by decide)

/-- Claim C3, counterexample: the combined (`--all`) mode's option list is
not lexicographically sorted after the pinned entry.  With local listing
`apple`/`zeta`, remote listing `origin/alpha` and current branch `apple`,
the options are `apple` (pinned), `zeta`, `origin/alpha`, and the part
after the pinned entry is out of order (`zeta` > `origin/alpha`). -/
theorem c3_counterexample :
    ¬ List.Sorted stringLe
      ((allOptionValues (getLocalBranches ("apple\nzeta".data))
        (getRemoteBranches ("origin/alpha".data)) "apple").tail) := by
  decide

/-- Claim C3 (amended): in the local-only and remote-only interactive
modes the option list is lexicographically sorted apart from the pinned
current-branch entry, which (when the current branch is non-empty) is the
first entry; in the combined mode the pinned entry is still first and each
segment (local branches without the current one, then remote branches) is
sorted, but the concatenation need not be globally sorted. -/
theorem c3_sorted_except_pinned (localOut remoteOut : List Char) (current : String) :
    List.Sorted stringLe ((localOptionValues (getLocalBranches localOut) current).tail) ∧
    List.Sorted stringLe ((remoteOptionValues (getRemoteBranches remoteOut) current).tail) ∧
    List.Sorted stringLe ((getLocalBranches localOut).filter (· ≠ current)) ∧
    List.Sorted stringLe (getRemoteBranches remoteOut) ∧
    (current ≠ "" →
      (localOptionValues (getLocalBranches localOut) current).head? = some current ∧
      (allOptionValues (getLocalBranches localOut) (getRemoteBranches remoteOut)
        current).head? = some current) := by
  have hlocal := sorted_getLocalBranches localOut
  have hremote := sorted_getRemoteBranches remoteOut
  have hfilter := sorted_filter (· ≠ current) hlocal
  refine ⟨?_, ?_, hfilter, hremote, ?_⟩
  · by_cases hc : current = ""
    · subst hc
      exact sorted_tail (by simpa [localOptionValues] using hfilter)
    · rw [show (localOptionValues (getLocalBranches localOut) current).tail
            = (getLocalBranches localOut).filter (· ≠ current) by
        simp [localOptionValues, hc]]
      exact hfilter
  · by_cases hc : current = ""
    · subst hc
      exact sorted_tail (by simpa [remoteOptionValues] using hremote)
    · rw [show (remoteOptionValues (getRemoteBranches remoteOut) current).tail
            = getRemoteBranches remoteOut by simp [remoteOptionValues, hc]]
      exact hremote
  · intro hc
    constructor
    · simp [localOptionValues, hc]
    · simp [allOptionValues, hc]

/-- Claim C3 witness: the amended theorem at a concrete local listing
`feature`/`main`, remote listing `origin/dev` and current branch `main`,
whose pinned entry is `main`. -/
theorem c3_witness :
    (localOptionValues (getLocalBranches ("feature\nmain".data)) "main").head?
      = some "main" := by
  exact ((c3_sorted_except_pinned ("feature\nmain".data) ("origin/dev".data)
    "main").2.2.2.2 (by decide)).1

/-- Claim C4: in the remote-only and combined interactive modes, a
selected value of the form `remote/name` (with no '/' in the remote part)
is stripped to the unqualified `name` before the switch executor is
invoked. -/
theorem c4_remote_qualified_stripped (p r : List Char)
    (branches localBranches remoteBranches : List String) (current : String)
    (res : CmdResult) (hp : '/' ∉ p) :
    (branches ≠ [] →
      (interactiveSwitchRemote branches current (some ⟨p ++ '/' :: r⟩)
        res).switchCalls = [⟨r⟩]) ∧
    (¬ (localBranches = [] ∧ remoteBranches = []) →
      (interactiveSwitchAll localBranches remoteBranches current
        (some ⟨p ++ '/' :: r⟩) res).switchCalls = [⟨r⟩]) := by
  constructor
  · intro h1
    unfold interactiveSwitchRemote
    rw [if_neg h1]
    rw [switchCalls_runSwitchBranch, stripRemote_append p r hp]
  · intro h2
    unfold interactiveSwitchAll
    rw [if_neg h2]
    rw [switchCalls_runSwitchBranch, stripRemoteAll_eq, stripRemote_append p r hp]

/-- Claim C4 witness: selecting `origin/feature/x` in remote mode invokes
the switch with `feature/x`. -/
theorem c4_witness :
    (interactiveSwitchRemote ["origin/feature/x"] "main"
        (some "origin/feature/x") CmdResult.ok).switchCalls = ["feature/x"] := by
  exact (c4_remote_qualified_stripped "origin".data "feature/x".data
    ["origin/feature/x"] [] [] "main" CmdResult.ok (by decide)).1 (by decide)

/-- Claim C5: in every interactive mode of both `main.go` revisions,
cancelling the prompt ends the process with exit code 0, an informational
message on stderr, and no invocation of the switch executor. -/
theorem c5_cancel_is_clean (branches localBranches remoteBranches : List String)
    (current : String) (res : CmdResult) :
    (branches ≠ [] →
      interactiveSwitchLocal branches current none res =
        ⟨0, ["Operation cancelled."], some (localOptionValues branches current), []⟩) ∧
    (branches ≠ [] →
      interactiveSwitchRemote branches current none res =
        ⟨0, ["Operation cancelled."], some (remoteOptionValues branches current), []⟩) ∧
    (¬ (localBranches = [] ∧ remoteBranches = []) →
      interactiveSwitchAll localBranches remoteBranches current none res =
        ⟨0, ["Operation cancelled."],
          some (allOptionValues localBranches remoteBranches current), []⟩) ∧
    (markerOptionValues branches current ≠ [] →
      interactiveSwitch branches current none res =
        ⟨0, ["Operation cancelled, staying on '" ++ current ++ "'."],
          some (markerOptionValues branches current), []⟩) := by
  refine ⟨fun h1 => ?_, fun h1 => ?_, fun h2 => ?_, fun h3 => ?_⟩
  · unfold interactiveSwitchLocal
    rw [if_neg h1]
  · unfold interactiveSwitchRemote
    rw [if_neg h1]
  · unfold interactiveSwitchAll
    rw [if_neg h2]
  · have hb : branches ≠ [] := by
      intro he
      exact h3 (by simp [markerOptionValues, he])
    unfold interactiveSwitch
    rw [if_neg hb]
    simp only [if_neg h3]

/-- Claim C5 witness: cancelling the local-mode prompt on the listing
`dev`/`main` with current branch `main`. -/
theorem c5_witness :
    interactiveSwitchLocal ["dev", "main"] "main" none CmdResult.ok =
      ⟨0, ["Operation cancelled."], some ["main", "dev"], []⟩ := by
  exact (c5_cancel_is_clean ["dev", "main"] [] [] "main" CmdResult.ok).1 (by decide)

/-- Claim C6, counterexample: in the earliest revision
(`src/unnamed/part_000`), `switchBranch` discards `cmd.Run()`'s error, so
when `git switch missing` fails with exit status 128 the process still
terminates with exit code 0 instead of adopting 128. -/
theorem c6_counterexample :
    (directSwitchOld "missing"
        (CmdResult.exitErr 128 "fatal: invalid reference: missing")).exitCode = 0 ∧
    (0 : Nat) ≠ 128 := by
  decide

/-- Claim C6 (amended): in the flag and marker revisions (`main.go`), a
failing switch terminates the process with the tool's own exit code, the
tool's stderr text is echoed, and the switch is invoked exactly once; in
the earliest revision (`part_000`) the error is discarded and the process
exits 0, although the tool's stderr text is still echoed and the switch is
still invoked exactly once. -/
theorem c6_switch_failure_propagates (branch sel text : String) (code : Nat)
    (branches : List String) (current : String) :
    directSwitch branch (CmdResult.exitErr code text) =
      ⟨code, [text], none, [branch]⟩ ∧
    (branches ≠ [] →
      interactiveSwitchLocal branches current (some sel) (CmdResult.exitErr code text) =
        ⟨code, [text], some (localOptionValues branches current), [sel]⟩) ∧
    (directSwitchOld branch (CmdResult.exitErr code text)).stderr = [text] ∧
    (directSwitchOld branch (CmdResult.exitErr code text)).switchCalls = [branch] := by
  refine ⟨rfl, fun h1 => ?_, rfl, rfl⟩
  unfold interactiveSwitchLocal
  rw [if_neg h1]
  rfl

/-- Claim C6 witness: a switch to `dev` failing with exit status 1 after
an interactive selection on the listing `dev`/`main`. -/
theorem c6_witness :
    interactiveSwitchLocal ["dev", "main"] "main" (some "dev")
        (CmdResult.exitErr 1 "error: branch not found") =
      ⟨1, ["error: branch not found"], some ["main", "dev"], ["dev"]⟩ := by
  exact (c6_switch_failure_propagates "dev" "dev" "error: branch not found" 1
    ["dev", "main"] "main").2.1 (by decide)

/-- Claim C7: every entry of the parsed remote branch list contains a '/'
separator and never ends in `/HEAD`, for every possible query output. -/
theorem c7_no_symbolic_heads (output : List Char) (b : String)
    (hb : b ∈ getRemoteBranches output) :
    '/' ∈ b.data ∧ ¬ "/HEAD".data.IsSuffix b.data := by
  have hb' : b ∈ ((splitLines output).filter keepRemote).map String.mk :=
    mem_sortStrings.mp hb
  obtain ⟨l, hl, rfl⟩ := List.mem_map.mp hb'
  have hk : keepRemote l = true := List.of_mem_filter hl
  simp only [keepRemote, Bool.and_eq_true, Bool.not_eq_true'] at hk
  refine ⟨?_, ?_⟩
  · have := hk.1.2
    simpa using this
  · intro hsuf
    have : List.isSuffixOf "/HEAD".data l = true := by
      simpa [List.isSuffixOf_iff_suffix] using hsuf
    rw [hk.2] at this
    exact Bool.false_ne_true this

/-- Claim C7 witness: on the query output
`origin/main`/`origin/HEAD`/`origin`, the surviving entry `origin/main`
contains a '/' and does not end in `/HEAD`. -/
theorem c7_witness :
    '/' ∈ ("origin/main" : String).data ∧
    ¬ "/HEAD".data.IsSuffix ("origin/main" : String).data := by
  exact c7_no_symbolic_heads ("origin/main\norigin/HEAD\norigin".data)
    "origin/main" (by decide)

/-- Claim C8, counterexample: the listers do not remove duplicates — on a
query output whose two lines are both `a`, the local lister returns the
branch `a` twice. -/
theorem c8_counterexample : ¬ (getLocalBranches ("a\na".data)).Nodup := by
  decide

/-- Claim C8 (amended): the branch sequences produced by the listers are
lexicographically sorted and independent of the order of the lines in the
query output, but duplicate lines are preserved rather than removed (the
real query's ref names are unique, so duplicates cannot arise there). -/
theorem c8_sorted_order_independent (output output2 : List Char) :
    List.Sorted stringLe (getLocalBranches output) ∧
    List.Sorted stringLe (getRemoteBranches output) ∧
    (((splitLines output).filter (· ≠ [])).Perm
        ((splitLines output2).filter (· ≠ [])) →
      getLocalBranches output = getLocalBranches output2) := by
  refine ⟨sorted_getLocalBranches output, sorted_getRemoteBranches output, fun hperm => ?_⟩
  have hmap : (((splitLines output).filter (· ≠ [])).map String.mk).Perm
      (((splitLines output2).filter (· ≠ [])).map String.mk) := hperm.map String.mk
  exact List.eq_of_perm_of_sorted
    ((perm_sortStrings _).trans (hmap.trans (perm_sortStrings _).symm))
    (sorted_getLocalBranches output) (sorted_getLocalBranches output2)

/-- Claim C8 witness: the listings `b`/`a` and `a`/`b` are permutations of
each other and yield the same sorted branch sequence. -/
theorem c8_witness : getLocalBranches ("b\na".data) = getLocalBranches ("a\nb".data) := by
  exact (c8_sorted_order_independent ("b\na".data) ("a\nb".data)).2.2 (by decide)

/-- Claim C9: in the marker revision's lister, when no parsed ref line
carries the `*` marker field, the whole listing fails with an error, no
matter how many branch lines were parsed. -/
theorem c9_no_marker_fails_listing (output : List Char)
    (h : ∀ l ∈ (splitLines output).filter (· ≠ []), ¬ lineHasMarker l) :
    getBranches output = Except.error "failed to detect current branch" := by
  have h2 : (((splitLines output).filter (· ≠ [])).foldl getBranchesStep ([], "")).2 = "" :=
    foldl_getBranchesStep_snd _ h ([], "")
  simp only [getBranches]
  rw [if_pos h2]

/-- Claim C9 witness: the two-line marker-less output `dev`/`main` (e.g.
a detached HEAD) parses two branch lines yet the listing fails. -/
theorem c9_witness :
    getBranches ("dev\nmain".data) = Except.error "failed to detect current branch" := by
  exact c9_no_marker_fails_listing ("dev\nmain".data) (by decide)

/-- Claim C10: in the combined mode, prefix-stripping applies to any
selected value containing '/', including a local branch whose name
contains '/' (selecting local branch `feature/auth` invokes the switch
with `auth`), and in the remote mode it applies equally to the pinned
current branch when its own name contains '/'. -/
theorem c10_strip_applies_to_local_names (p r : List Char)
    (localBranches remoteBranches : List String) (current : String)
    (res : CmdResult) (hp : '/' ∉ p) :
    ((⟨p ++ '/' :: r⟩ : String) ∈ localBranches →
      (interactiveSwitchAll localBranches remoteBranches current
        (some ⟨p ++ '/' :: r⟩) res).switchCalls = [⟨r⟩]) ∧
    (remoteBranches ≠ [] →
      (interactiveSwitchRemote remoteBranches ⟨p ++ '/' :: r⟩
        (some ⟨p ++ '/' :: r⟩) res).switchCalls = [⟨r⟩]) := by
  constructor
  · intro hmem
    have hne : ¬ (localBranches = [] ∧ remoteBranches = []) := fun hand =>
      List.ne_nil_of_mem hmem hand.1
    unfold interactiveSwitchAll
    rw [if_neg hne]
    rw [switchCalls_runSwitchBranch, stripRemoteAll_eq, stripRemote_append p r hp]
  · intro h1
    unfold interactiveSwitchRemote
    rw [if_neg h1]
    rw [switchCalls_runSwitchBranch, stripRemote_append p r hp]

/-- Claim C10 witness: selecting the local branch `feature/auth` in
combined mode invokes the switch with target `auth`, not `feature/auth`. -/
theorem c10_witness :
    (interactiveSwitchAll ["feature/auth", "main"] [] "main"
        (some "feature/auth") CmdResult.ok).switchCalls = ["auth"] := by
  exact (c10_strip_applies_to_local_names "feature".data "auth".data
    ["feature/auth", "main"] [] "main" CmdResult.ok (by decide)).1 (by decide)
